import Mathlib

/-!
Verification of the instruction-parsing and register-encoding engine of
`stdin_to_modbus_shm` (files `src/InputParser.cpp`, `src/InputParser.hpp`,
`src/InputParser_int.hpp`, `src/InputParser_float.hpp`, `src/split_string.hpp`).

Modelling conventions:
* `std::size_t` / `unsigned long long` values are `Nat`s; additions that the
  C++ code performs in `size_t` are reduced `% 2^64` where they can overflow.
* Fallible C++ code (`throw std::invalid_argument`) is modelled with
  `Except String` / `Option`; the exception message strings are reproduced
  verbatim.
* The C library numeral conversions `strtoull`/`strtoll`/`strtof`/`strtod`
  (reached through `std::stoull`/`std::stoll`/`std::stof`/`std::stod`) are
  modelled faithfully: leading white-space, an optional sign, base auto
  detection for `0x`/`0` prefixes, wrap-around negation for `strtoull`,
  and for the float family decimal/hexadecimal significands with correctly
  rounded (round-to-nearest, ties-to-even) IEEE-754 results.
* The codec routines reinterpret a value's bytes through a `union` of
  `uint16_t reg[n]` with the value type, after converting the value to
  big-endian or little-endian byte order with the `cxxendian` library
  (a vendored submodule whose observable effect is to lay the value's bytes
  out in the selected order).  We model the byte layout on a little-endian
  host (the architecture the tool targets): a 16-bit register word read from
  memory bytes `[b_lo, b_hi]` has numeric value `b_lo + 256 * b_hi`.
-/

namespace InputParser

/-! ### Characters and strings -/

/-- `std::tolower` in the C locale: only ASCII `A`-`Z` are mapped. -/
def lowerChar (c : Char) : Char :=
  if 65 ≤ c.toNat ∧ c.toNat ≤ 90 then Char.ofNat (c.toNat + 32) else c

/-- Lower-casing of the whole line (`std::transform` with `tolower`). -/
def strLower (s : String) : String := String.mk (s.data.map lowerChar)

/-- The single-quote character `'` used by the C++ error messages. -/
def sq : String := String.singleton (Char.ofNat 39)

/-! ### `split_string.hpp` -/

/-- Scanning loop of `split_string`: `cur` holds the characters of the field
being accumulated (in reverse), `maxs` the remaining number of splits.
Mirrors the C++ loop `while (max_split && (pos = find(delim)) != npos)`
followed by `if (!string.empty()) push_back(string)`. -/
def splitGo (d : Char) : Nat → List Char → List Char → List (List Char)
  | _, cur, [] => if cur = [] then [] else [cur.reverse]
  | maxs, cur, c :: cs =>
    if c = d then
      match maxs with
      | 0 => [cur.reverse ++ c :: cs]
      | m + 1 => cur.reverse :: splitGo d m [] cs
    else splitGo d maxs (c :: cur) cs

/-- `split_string(string, delimiter, max_split)` for a single-character
delimiter (the overload the parser uses; its default `max_split` is
`~(std::size_t)0 = 2^64 - 1`). -/
def split_string (s : String) (delimiter : Char) (max_split : Nat) : List String :=
  (splitGo delimiter max_split [] s.data).map String.mk

/-! ### C numeral conversions (`strtoull` / `strtoll`) -/

/-- `isspace` in the C locale. -/
def isSpaceC (c : Char) : Bool :=
  c == ' ' || c == '\t' || c == '\n' || c == Char.ofNat 11 || c == Char.ofNat 12 || c == '\r'

/-- Count and drop a maximal prefix satisfying `p`. -/
def spanCount (p : Char → Bool) : List Char → Nat × List Char
  | [] => (0, [])
  | c :: cs =>
    if p c then
      let (n, r) := spanCount p cs
      (n + 1, r)
    else (0, c :: cs)

/-- The numeric value of a digit character in bases up to 36, if any. -/
def digitVal (c : Char) : Option Nat :=
  let n := c.toNat
  if 48 ≤ n ∧ n ≤ 57 then some (n - 48)
  else if 97 ≤ n ∧ n ≤ 122 then some (n - 87)
  else if 65 ≤ n ∧ n ≤ 90 then some (n - 55)
  else none

/-- Whether `c` is a digit of base `base`. -/
def isDigitBase (base : Nat) (c : Char) : Bool :=
  match digitVal c with
  | some v => v < base
  | none => false

/-- Consume a maximal run of base-`base` digits, accumulating the exact value.
Returns `(value, digit count, rest)`. -/
def takeDigits (base : Nat) (acc : Nat) : List Char → Nat × Nat × List Char
  | [] => (acc, 0, [])
  | c :: cs =>
    match digitVal c with
    | some v =>
      if v < base then
        let (val, n, rest) := takeDigits base (acc * base + v) cs
        (val, n + 1, rest)
      else (acc, 0, c :: cs)
    | none => (acc, 0, c :: cs)

/-- Optional sign: returns (negative?, chars consumed, rest). -/
def readSign : List Char → Bool × Nat × List Char
  | '+' :: cs => (false, 1, cs)
  | '-' :: cs => (true, 1, cs)
  | cs => (false, 0, cs)

/-- `ULLONG_MAX`. -/
def U64MAX : Nat := 2 ^ 64 - 1

/-- Final value of `strtoull`: a minus sign negates in the return type,
i.e. wraps modulo `2^64`. -/
def ullFinal (neg : Bool) (v : Nat) : Nat :=
  if neg then (2 ^ 64 - v) % 2 ^ 64 else v

/-- Base resolution of `strtoul*`: for base 0 or 16 a `0x`/`0X` prefix
(followed by a hex digit) selects base 16; otherwise base 0 auto-detects
octal (leading `0`) or decimal.  Returns (effective base, consumed, rest). -/
def resolveBase (base : Nat) (l : List Char) : Nat × Nat × List Char :=
  if base = 16 ∨ base = 0 then
    match l with
    | '0' :: x :: r =>
      if (x == 'x' || x == 'X') && (match r with
          | c :: _ => isDigitBase 16 c
          | [] => false) then
        (16, 2, r)
      else if base = 0 then (8, 0, l) else (16, 0, l)
    | _ =>
      if base = 0 then
        match l with
        | '0' :: _ => (8, 0, l)
        | _ => (10, 0, l)
      else (16, 0, l)
  else (base, 0, l)

/-- Model of `std::stoull(s, &idx, base)`: returns the converted value and the
number of characters consumed, `none` when the call throws
(`std::invalid_argument` when no conversion is possible, `std::out_of_range`
when the magnitude exceeds `ULLONG_MAX`, and `EINVAL` for an unsupported
base). -/
def stoullM (s : String) (base : Nat) : Option (Nat × Nat) :=
  if base = 0 ∨ (2 ≤ base ∧ base ≤ 36) then
    let (wsN, l1) := spanCount isSpaceC s.data
    let (neg, sgnN, l2) := readSign l1
    let (base', preN, l3) := resolveBase base l2
    let (v, n, _) := takeDigits base' 0 l3
    if n = 0 then none
    else if v > U64MAX then none
    else some (ullFinal neg v, wsN + sgnN + preN + n)
  else none

/-- Model of `std::stoll(s, &idx, base)`: like `stoullM` but the value is
signed and out-of-range magnitudes (outside `[-2^63, 2^63-1]`) throw. -/
def stollM (s : String) (base : Nat) : Option (Int × Nat) :=
  if base = 0 ∨ (2 ≤ base ∧ base ≤ 36) then
    let (wsN, l1) := spanCount isSpaceC s.data
    let (neg, sgnN, l2) := readSign l1
    let (base', preN, l3) := resolveBase base l2
    let (v, n, _) := takeDigits base' 0 l3
    if n = 0 then none
    else
      let val : Int := if neg then -(v : Int) else (v : Int)
      if val < -(2 ^ 63) ∨ val > 2 ^ 63 - 1 then none
      else some (val, wsN + sgnN + preN + n)
  else none

/-- The `stoull`-then-check-idx pattern used by `parse` for addresses and
(three-field) values: the conversion must consume the whole token. -/
def stoull_all (s : String) (base : Nat) : Option Nat :=
  match stoullM s base with
  | some (v, idx) => if idx = s.data.length then some v else none
  | none => none

/-! ### `InputParser_int.hpp`: `parse_int` -/

/-- `parse_int<T>` for unsigned `T` of `bits` bits: keywords `min`, `max`,
`lowest`, otherwise `stoull` which must consume the token and fit in `T`. -/
def parse_int_u (bits : Nat) (value : String) (base : Nat) : Option Nat :=
  if value = "min" then some 0
  else if value = "max" then some (2 ^ bits - 1)
  else if value = "lowest" then some 0
  else
    match stoullM value base with
    | some (v, idx) =>
      if idx = value.data.length ∧ v ≤ 2 ^ bits - 1 then some v else none
    | none => none

/-- `parse_int<T>` for signed `T` of `bits` bits. -/
def parse_int_i (bits : Nat) (value : String) (base : Nat) : Option Int :=
  if value = "min" then some (-(2 ^ (bits - 1)))
  else if value = "max" then some (2 ^ (bits - 1) - 1)
  else if value = "lowest" then some (-(2 ^ (bits - 1)))
  else
    match stollM value base with
    | some (v, idx) =>
      if idx = value.data.length ∧ -(2 ^ (bits - 1)) ≤ v ∧ v ≤ 2 ^ (bits - 1) - 1 then some v
      else none
    | none => none

/-! ### C numeral conversions (`strtof` / `strtod`)

IEEE-754 values are represented by their bit patterns (a `Nat`).  An IEEE
format is given by its significand precision `prec` (24 or 53), minimum and
maximum normal exponents `emin`/`emax`, and exponent field width `expBits`. -/

/-- Fuel-based floor of `log2` (kernel-reducible); `natLog2F n n` is exact
for every `n ≥ 1`. -/
def natLog2F : Nat → Nat → Nat
  | 0, _ => 0
  | fuel + 1, n => if n < 2 then 0 else natLog2F fuel (n / 2) + 1

/-- `2^e ≤ n/d` for an integer `e` (exact rational comparison). -/
def pow2Le (e : Int) (n d : Nat) : Bool :=
  if 0 ≤ e then d * 2 ^ e.toNat ≤ n else d ≤ n * 2 ^ (-e).toNat

/-- Round the positive rational `n/d` to the IEEE format, round-to-nearest
ties-to-even, and build the bit pattern (with `neg` as the sign).  Returns
`none` on overflow to infinity (`strtof`/`strtod` set `ERANGE`, so
`std::stof`/`std::stod` throw `std::out_of_range`). -/
def roundBits (neg : Bool) (n d : Nat) (prec : Nat) (emin emax : Int) (expBits : Nat) :
    Option Nat :=
  let signBit : Nat := if neg then 2 ^ (expBits + prec - 1) else 0
  if n = 0 then some signBit
  else
    let a : Int := natLog2F n n
    let b : Int := natLog2F d d
    let e : Int := if pow2Le (a - b) n d then a - b else a - b - 1
    let eEff : Int := if e < emin then emin else e
    let shift : Int := (prec : Int) - 1 - eEff
    let num := n * 2 ^ shift.toNat
    let den := d * 2 ^ (-shift).toNat
    let q := num / den
    let r := num % den
    let s := q + (if 2 * r > den ∨ (2 * r = den ∧ q % 2 = 1) then 1 else 0)
    let (s, eEff) := if s = 2 ^ prec then (2 ^ (prec - 1), eEff + 1) else (s, eEff)
    if eEff > emax then none
    else if s < 2 ^ (prec - 1) then some (signBit + s)
    else some (signBit + (eEff - emin + 1).toNat * 2 ^ (prec - 1) + (s - 2 ^ (prec - 1)))

/-- Case-insensitive match of the ASCII word `w` as a prefix of `l`. -/
def matchCI : List Char → List Char → Bool
  | [], _ => true
  | _ :: _, [] => false
  | w :: ws, c :: cs => lowerChar c == w && matchCI ws cs

/-- `nan(...)` optional parenthesised sequence of alphanumerics/underscores;
returns the extra characters consumed. -/
def nanParen (l : List Char) : Nat :=
  match l with
  | '(' :: r =>
    let isNanChar : Char → Bool := fun c =>
      (digitVal c).isSome || c == '_'
    let (k, r') := spanCount isNanChar r
    match r' with
    | ')' :: _ => k + 2
    | _ => 0
  | _ => 0

/-- A parsed significand: its integer value (fraction digits included), the
number of fraction digits, the number of digits read in total, the number of
characters consumed (decimal point included), and the remaining input. -/
structure Mant where
  val : Nat
  fracDigits : Nat
  digits : Nat
  consumed : Nat
  rest : List Char

/-- Read a significand in radix `radix`: digits, optionally a decimal point
and more digits.  The conversion is valid only if `digits ≠ 0`. -/
def readMant (radix : Nat) (l : List Char) : Mant :=
  let (i, ni, l1) := takeDigits radix 0 l
  match l1 with
  | '.' :: l2 =>
    let (f, nf, l3) := takeDigits radix 0 l2
    ⟨i * radix ^ nf + f, nf, ni + nf, ni + 1 + nf, l3⟩
  | _ => ⟨i, 0, ni, ni, l1⟩

/-- Read an exponent part introduced by one of the characters in `intro`
(e.g. `e`/`E` or `p`/`P`): sign and at least one decimal digit, otherwise
nothing is consumed.  Returns `(exponent, chars consumed, rest)`. -/
def readExp (intro : List Char) (l : List Char) : Int × Nat × List Char :=
  match l with
  | c :: l1 =>
    if intro.contains c then
      let (eneg, sgnN, l2) := readSign l1
      let (x, nx, l3) := takeDigits 10 0 l2
      if nx = 0 then (0, 0, l)
      else ((if eneg then -(x : Int) else (x : Int)), 1 + sgnN + nx, l3)
    else (0, 0, l)
  | [] => (0, 0, l)

/-- Model of `strtof`/`strtod` on the string `s`, parameterised by the IEEE
format.  Returns the bit pattern and the number of characters consumed, or
`none` when no conversion is possible or the result overflows (`std::stof`
and `std::stod` throw in both cases). -/
def strtofM (prec : Nat) (emin emax : Int) (expBits : Nat) (s : String) :
    Option (Nat × Nat) :=
  let infBits : Nat := (2 ^ expBits - 1) * 2 ^ (prec - 1)
  let nanBits : Nat := (2 ^ expBits - 1) * 2 ^ (prec - 1) + 2 ^ (prec - 2)
  let signBit : Nat := 2 ^ (expBits + prec - 1)
  let (wsN, l1) := spanCount isSpaceC s.data
  let (neg, sgnN, l2) := readSign l1
  let sb : Nat := if neg then signBit else 0
  if matchCI "infinity".data l2 then some (sb + infBits, wsN + sgnN + 8)
  else if matchCI "inf".data l2 then some (sb + infBits, wsN + sgnN + 3)
  else if matchCI "nan".data l2 then
    some (sb + nanBits, wsN + sgnN + 3 + nanParen (l2.drop 3))
  else
    let hex : Bool :=
      match l2 with
      | '0' :: x :: l3 => (x == 'x' || x == 'X') && (readMant 16 l3).digits ≠ 0
      | _ => false
    if hex then
      -- hexadecimal significand, optional binary exponent
      let m := readMant 16 (l2.drop 2)
      let (p, np, _) := readExp ['p', 'P'] m.rest
      let n := m.val * 2 ^ p.toNat
      let d := 16 ^ m.fracDigits * 2 ^ (-p).toNat
      (roundBits neg n d prec emin emax expBits).map
        fun bits => (bits, wsN + sgnN + 2 + m.consumed + np)
    else
      -- decimal significand, optional decimal exponent
      let m := readMant 10 l2
      if m.digits = 0 then none
      else
        let (p, np, _) := readExp ['e', 'E'] m.rest
        let n := m.val * 10 ^ p.toNat
        let d := 10 ^ m.fracDigits * 10 ^ (-p).toNat
        (roundBits neg n d prec emin emax expBits).map
          fun bits => (bits, wsN + sgnN + m.consumed + np)

/-- `std::stof`. -/
def stofM (s : String) : Option (Nat × Nat) := strtofM 24 (-126) 127 8 s

/-- `std::stod`. -/
def stodM (s : String) : Option (Nat × Nat) := strtofM 53 (-1022) 1023 11 s

/-! ### `InputParser_float.hpp`: `parse_float` / `parse_double` -/

/-- `parse_float` (`InputParser_float.hpp`): the keywords `nan`, `inf`,
`-inf` return the IEEE special values.  The branches for `min`, `max`,
`epsilon` and `lowest` in the C++ source compute the corresponding
`std::numeric_limits` constant but discard it (no `return` statement), so
control falls through to `std::stof`, which must consume the whole token.
The result is the binary32 bit pattern. -/
def parse_float (value : String) : Option Nat :=
  if value = "nan" then some 0x7FC00000
  else if value = "inf" then some 0x7F800000
  else if value = "-inf" then some 0xFF800000
  else
    match stofM value with
    | some (bits, idx) => if idx = value.data.length then some bits else none
    | none => none

/-- `parse_double`: same structure as `parse_float` with binary64. -/
def parse_double (value : String) : Option Nat :=
  if value = "nan" then some 0x7FF8000000000000
  else if value = "inf" then some 0x7FF0000000000000
  else if value = "-inf" then some 0xFFF0000000000000
  else
    match stodM value with
    | some (bits, idx) => if idx = value.data.length then some bits else none
    | none => none

/-! ### Instructions and register words -/

/-- `Instruction::register_type_t`. -/
inductive register_type_t where
  | DO
  | DI
  | AO
  | AI
deriving DecidableEq, Repr

/-- `InputParser::Instruction`: register type, register address (`size_t`)
and 16-bit register value. -/
structure Instruction where
  register_type : register_type_t
  address : Nat
  value : Nat
deriving DecidableEq, Repr

instance : DecidableEq (Except String (List Instruction)) := fun x y =>
  match x, y with
  | .error a, .error b =>
    decidable_of_iff (a = b) ⟨fun h => h ▸ rfl, fun h => by cases h; rfl⟩
  | .error _, .ok _ => .isFalse (fun h => by cases h)
  | .ok _, .error _ => .isFalse (fun h => by cases h)
  | .ok a, .ok b =>
    decidable_of_iff (a = b) ⟨fun h => h ▸ rfl, fun h => by cases h; rfl⟩

/-- The memory bytes of the `n`-byte value `v` laid out in big-endian order
(most significant byte first), as `cxxendian::BE_Int`/`BE_Float` store it. -/
def beBytes (v n : Nat) : List Nat :=
  (List.range n).map fun k => v / 2 ^ (8 * (n - 1 - k)) % 256

/-- The memory bytes of `v` laid out in little-endian order. -/
def leBytes (v n : Nat) : List Nat :=
  (List.range n).map fun k => v / 2 ^ (8 * k) % 256

/-- Group consecutive memory bytes into 16-bit register words as the
little-endian host reads the `uint16_t reg[]` member of the union:
the word over bytes `[lo, hi]` is `lo + 256 * hi`. -/
def wordsOfBytes : List Nat → List Nat
  | b0 :: b1 :: rest => (b0 + 256 * b1) :: wordsOfBytes rest
  | _ => []

/-- Register words of the `n`-byte value `v` stored in big-endian order. -/
def regsBE (v n : Nat) : List Nat := wordsOfBytes (beBytes v n)

/-- Register words of the `n`-byte value `v` stored in little-endian order. -/
def regsLE (v n : Nat) : List Nat := wordsOfBytes (leBytes v n)

/-- Two's-complement bit pattern of the signed value `v` in `bits` bits. -/
def toU (bits : Nat) (v : Int) : Nat := (v % ((2 : Int) ^ bits)).toNat

/-- Build the emitted instruction list for the word list `ws` starting at
address `addr`: word `i` goes to address `addr + i` (computed in `size_t`,
hence reduced `% 2^64`). -/
def mkRegs (t : register_type_t) (addr : Nat) (ws : List Nat) : List Instruction :=
  (List.range ws.length).map fun i => ⟨t, (addr + i) % 2 ^ 64, ws.getD i 0⟩

/-! ### The codec routines

Each matches one `static std::vector<Instruction> parse_...` function.
All share the signature of the C++ `parse_function` pointer type; `none`
models the `std::invalid_argument` thrown by the underlying numeral parse.
The final `Bool` argument is the verbosity flag, which only controls
logging to `stderr` and never affects the returned instructions. -/

/-- Type of the entries of `PARSE_FUNCTIONS`. -/
abbrev parse_function :=
  register_type_t → Nat → String → Nat → Bool → Option (List Instruction)

-- 8 bit
def parse_u8_lo : parse_function := fun t addr value base _ =>
  (parse_int_u 8 value base).map fun v => mkRegs t addr [v]

def parse_u8_hi : parse_function := fun t addr value base _ =>
  (parse_int_u 8 value base).map fun v => mkRegs t addr [256 * v]

def parse_i8_lo : parse_function := fun t addr value base _ =>
  (parse_int_i 8 value base).map fun v => mkRegs t addr [toU 8 v]

def parse_i8_hi : parse_function := fun t addr value base _ =>
  (parse_int_i 8 value base).map fun v => mkRegs t addr [256 * toU 8 v]

-- 16 bit
def parse_u16_ab : parse_function := fun t addr value base _ =>
  (parse_int_u 16 value base).map fun v => mkRegs t addr (regsBE v 2)

def parse_u16_ba : parse_function := fun t addr value base _ =>
  (parse_int_u 16 value base).map fun v => mkRegs t addr (regsLE v 2)

def parse_i16_ab : parse_function := fun t addr value base _ =>
  (parse_int_i 16 value base).map fun v => mkRegs t addr (regsBE (toU 16 v) 2)

def parse_i16_ba : parse_function := fun t addr value base _ =>
  (parse_int_i 16 value base).map fun v => mkRegs t addr (regsLE (toU 16 v) 2)

-- 32 bit: `abcd` big endian, `dcba` little endian, `cdab`/`badc` the same
-- with the two registers emitted in reversed order (`reg[1]` then `reg[0]`).
def parse_u32abcd : parse_function := fun t addr value base _ =>
  (parse_int_u 32 value base).map fun v => mkRegs t addr (regsBE v 4)

def parse_u32dcba : parse_function := fun t addr value base _ =>
  (parse_int_u 32 value base).map fun v => mkRegs t addr (regsLE v 4)

def parse_u32cdab : parse_function := fun t addr value base _ =>
  (parse_int_u 32 value base).map fun v => mkRegs t addr (regsBE v 4).reverse

def parse_u32badc : parse_function := fun t addr value base _ =>
  (parse_int_u 32 value base).map fun v => mkRegs t addr (regsLE v 4).reverse

def parse_i32abcd : parse_function := fun t addr value base _ =>
  (parse_int_i 32 value base).map fun v => mkRegs t addr (regsBE (toU 32 v) 4)

def parse_i32dcba : parse_function := fun t addr value base _ =>
  (parse_int_i 32 value base).map fun v => mkRegs t addr (regsLE (toU 32 v) 4)

def parse_i32cdab : parse_function := fun t addr value base _ =>
  (parse_int_i 32 value base).map fun v => mkRegs t addr (regsBE (toU 32 v) 4).reverse

def parse_i32badc : parse_function := fun t addr value base _ =>
  (parse_int_i 32 value base).map fun v => mkRegs t addr (regsLE (toU 32 v) 4).reverse

-- 64 bit: `abcdefgh` big endian, `hgfedcba` little endian, `ghefcdab` /
-- `badcfehg` the same with the four registers emitted in fully reversed
-- order (`reg[3], reg[2], reg[1], reg[0]`).
def parse_u64abcdefgh : parse_function := fun t addr value base _ =>
  (parse_int_u 64 value base).map fun v => mkRegs t addr (regsBE v 8)

def parse_u64hgfedcba : parse_function := fun t addr value base _ =>
  (parse_int_u 64 value base).map fun v => mkRegs t addr (regsLE v 8)

def parse_u64ghefcdab : parse_function := fun t addr value base _ =>
  (parse_int_u 64 value base).map fun v => mkRegs t addr (regsBE v 8).reverse

def parse_u64badcfehg : parse_function := fun t addr value base _ =>
  (parse_int_u 64 value base).map fun v => mkRegs t addr (regsLE v 8).reverse

def parse_i64abcdefgh : parse_function := fun t addr value base _ =>
  (parse_int_i 64 value base).map fun v => mkRegs t addr (regsBE (toU 64 v) 8)

def parse_i64hgfedcba : parse_function := fun t addr value base _ =>
  (parse_int_i 64 value base).map fun v => mkRegs t addr (regsLE (toU 64 v) 8)

def parse_i64ghefcdab : parse_function := fun t addr value base _ =>
  (parse_int_i 64 value base).map fun v => mkRegs t addr (regsBE (toU 64 v) 8).reverse

def parse_i64badcfehg : parse_function := fun t addr value base _ =>
  (parse_int_i 64 value base).map fun v => mkRegs t addr (regsLE (toU 64 v) 8).reverse

-- 32-bit float
def parse_f32abcd : parse_function := fun t addr value _ _ =>
  (parse_float value).map fun bits => mkRegs t addr (regsBE bits 4)

def parse_f32cdab : parse_function := fun t addr value _ _ =>
  (parse_float value).map fun bits => mkRegs t addr (regsBE bits 4).reverse

def parse_f32dcba : parse_function := fun t addr value _ _ =>
  (parse_float value).map fun bits => mkRegs t addr (regsLE bits 4)

def parse_f32badc : parse_function := fun t addr value _ _ =>
  (parse_float value).map fun bits => mkRegs t addr (regsLE bits 4).reverse

-- 64-bit float
def parse_f64abcdefgh : parse_function := fun t addr value _ _ =>
  (parse_double value).map fun bits => mkRegs t addr (regsBE bits 8)

def parse_f64hgfedcba : parse_function := fun t addr value _ _ =>
  (parse_double value).map fun bits => mkRegs t addr (regsLE bits 8)

def parse_f64ghefcdab : parse_function := fun t addr value _ _ =>
  (parse_double value).map fun bits => mkRegs t addr (regsBE bits 8).reverse

def parse_f64badcfehg : parse_function := fun t addr value _ _ =>
  (parse_double value).map fun bits => mkRegs t addr (regsLE bits 8).reverse

/-! ### The codec registry and the `parse` entry point (`InputParser.cpp`) -/

/-- The static table `PARSE_FUNCTIONS` (association list; keys unique). -/
def PARSE_FUNCTIONS : List (String × parse_function) := [
  -- float
  ("f32_abcd", parse_f32abcd),
  ("f32_cdab", parse_f32cdab),
  ("f32_badc", parse_f32badc),
  ("f32_dcba", parse_f32dcba),
  ("f32_little", parse_f32dcba),
  ("f32l", parse_f32dcba),
  ("f32_big", parse_f32abcd),
  ("f32b", parse_f32abcd),
  ("f32_little_rev", parse_f32badc),
  ("f32lr", parse_f32badc),
  ("f32_big_rev", parse_f32cdab),
  ("f32br", parse_f32cdab),
  -- double
  ("f64_abcdefgh", parse_f64abcdefgh),
  ("f64_ghefcdab", parse_f64ghefcdab),
  ("f64_badcfehg", parse_f64badcfehg),
  ("f64_hgfedcba", parse_f64hgfedcba),
  ("f64_little", parse_f64hgfedcba),
  ("f64l", parse_f64hgfedcba),
  ("f64_big", parse_f64abcdefgh),
  ("f64b", parse_f64abcdefgh),
  ("f64_little_rev", parse_f64badcfehg),
  ("f64lr", parse_f64badcfehg),
  ("f64_big_rev", parse_f64ghefcdab),
  ("f64br", parse_f64ghefcdab),
  -- 8 bit integer
  ("u8_lo", parse_u8_lo),
  ("u8_hi", parse_u8_hi),
  ("i8_lo", parse_i8_lo),
  ("i8_hi", parse_i8_hi),
  -- 16 bit integer
  ("u16_ab", parse_u16_ab),
  ("u16_big", parse_u16_ab),
  ("u16b", parse_u16_ab),
  ("u16_ba", parse_u16_ba),
  ("u16_little", parse_u16_ba),
  ("u16l", parse_u16_ba),
  ("i16_ab", parse_i16_ab),
  ("i16_big", parse_i16_ab),
  ("i16b", parse_i16_ab),
  ("i16_ba", parse_i16_ba),
  ("i16_little", parse_i16_ba),
  ("i16l", parse_i16_ba),
  -- 32 bit integer
  ("u32_abcd", parse_u32abcd),
  ("u32_cdab", parse_u32cdab),
  ("u32_badc", parse_u32badc),
  ("u32_dcba", parse_u32dcba),
  ("u32_little", parse_u32dcba),
  ("u32l", parse_u32dcba),
  ("u32_big", parse_u32abcd),
  ("u32b", parse_u32abcd),
  ("u32_little_rev", parse_u32badc),
  ("u32lr", parse_u32badc),
  ("u32_big_rev", parse_u32cdab),
  ("u32br", parse_u32cdab),
  ("i32_abcd", parse_i32abcd),
  ("i32_cdab", parse_i32cdab),
  ("i32_badc", parse_i32badc),
  ("i32_dcba", parse_i32dcba),
  ("i32_little", parse_i32dcba),
  ("i32l", parse_i32dcba),
  ("i32_big", parse_i32abcd),
  ("i32b", parse_i32abcd),
  ("i32_little_rev", parse_i32badc),
  ("i32lr", parse_i32badc),
  ("i32_big_rev", parse_i32cdab),
  ("i32br", parse_i32cdab),
  -- 64 bit integer
  ("u64_abcdefgh", parse_u64abcdefgh),
  ("u64_ghefcdab", parse_u64ghefcdab),
  ("u64_badcfehg", parse_u64badcfehg),
  ("u64_hgfedcba", parse_u64hgfedcba),
  ("u64_little", parse_u64hgfedcba),
  ("u64l", parse_u64hgfedcba),
  ("u64_big", parse_u64abcdefgh),
  ("u64b", parse_u64abcdefgh),
  ("u64_little_rev", parse_u64badcfehg),
  ("u64lr", parse_u64badcfehg),
  ("u64_big_rev", parse_u64ghefcdab),
  ("u64br", parse_u64ghefcdab),
  ("i64_abcdefgh", parse_i64abcdefgh),
  ("i64_ghefcdab", parse_i64ghefcdab),
  ("i64_badcfehg", parse_i64badcfehg),
  ("i64_hgfedcba", parse_i64hgfedcba),
  ("i64_little", parse_i64hgfedcba),
  ("i64l", parse_i64hgfedcba),
  ("i64_big", parse_i64abcdefgh),
  ("i64b", parse_i64abcdefgh),
  ("i64_little_rev", parse_i64badcfehg),
  ("i64lr", parse_i64badcfehg),
  ("i64_big_rev", parse_i64ghefcdab),
  ("i64br", parse_i64ghefcdab)]

/-- Lookup in `PARSE_FUNCTIONS` (`std::unordered_map::find` by key
equality). -/
def lookup_parse_function (s : String) : Option parse_function :=
  (PARSE_FUNCTIONS.find? fun p => p.1 == s).map fun p => p.2

/-- The string constants of `InputParser.hpp` used by the value
normalizer. -/
def PI : String := "3.14159265358979323846"
def NPI : String := "-3.14159265358979323846"
def SQRT2 : String := "1.41421356237309504880"
def SQRT3 : String := "1.73205080756887729352"
def PHI : String := "1.61803398874989484820"
def LN2 : String := "0.69314718055994530941"
def E : String := "2.71828182845904523536"

/-- The "convert value expressions" block of `parse`: replaces a symbolic
value token (boolean alias or named math constant) by its literal numeral
string; any other token is left unchanged. -/
def convert_value (s : String) : String :=
  if s = "true" ∨ s = "one" ∨ s = "high" ∨ s = "active" ∨ s = "on" ∨ s = "enabled" then "1"
  else if s = "false" ∨ s = "zero" ∨ s = "low" ∨ s = "inactive" ∨ s = "off" ∨ s = "disabled" then
    "0"
  else if s = "pi" then PI
  else if s = "npi" ∨ s = "-pi" then NPI
  else if s = "sqrt2" then SQRT2
  else if s = "sqrt3" then SQRT3
  else if s = "phi" then PHI
  else if s = "ln2" then LN2
  else if s = "e" then E
  else s

/-- The register-type resolution of `parse` (`"do" | "di" | "ao" | "ai"`). -/
def register_type_of (s : String) : Option register_type_t :=
  if s = "do" then some .DO
  else if s = "di" then some .DI
  else if s = "ao" then some .AO
  else if s = "ai" then some .AI
  else none

/-- The `modbus_conv_float` compatibility rewrite: a (lower-cased) line that
starts with the two characters `f:` is replaced by the remainder with
`:f32_badc` appended (`line = line.substr(2) + ':' + "f32_badc"`). -/
def rewrite_legacy (l : List Char) : List Char :=
  match l with
  | c1 :: c2 :: rest => if c1 = 'f' ∧ c2 = ':' then rest ++ ":f32_badc".data else l
  | _ => l

/-- Lower-casing, legacy rewrite and tokenization on `:` — the first three
steps of `parse` (the `split_string` default `max_split` is `2^64 - 1`). -/
def tokenizeLine (line : String) : List String :=
  split_string (String.mk (rewrite_legacy (strLower line).data)) ':' (2 ^ 64 - 1)

/-- The body of `parse` after tokenization.  Mirrors `InputParser.cpp`
lines 181-268: field-count check, value-expression conversion, register
type, address, and either the direct single-register write (3 fields) or
the codec dispatch (4 fields).  Thrown `std::invalid_argument` exceptions
are modelled as `.error` with the exact message. -/
def parse_fields (fields : List String) (base_addr base_value : Nat) (verbose : Bool) :
    Except String (List Instruction) :=
  if fields.length > 4 ∨ fields.length < 3 then
    .error "The input does not contain the appropriate number of delimiters"
  else
    let fields := fields.set 2 (convert_value (fields.getD 2 ""))
    let type_str := fields.getD 0 ""
    match register_type_of type_str with
    | none => .error (sq ++ type_str ++ sq ++ " is not a valid register type")
    | some ty =>
      let addr_str := fields.getD 1 ""
      match stoull_all addr_str base_addr with
      | none => .error ("Failed to parse address " ++ sq ++ addr_str ++ sq)
      | some addr =>
        let value_str := fields.getD 2 ""
        if fields.length = 3 then
          match stoull_all value_str base_value with
          | none => .error ("Failed to parse value " ++ sq ++ value_str ++ sq)
          | some v => .ok [⟨ty, addr, v % 65536⟩]
        else
          match ty with
          | .DO | .DI => .error "Data type specification for coils is not allowed"
          | _ =>
            match lookup_parse_function (fields.getD 3 "") with
            | none => .error ("Unknown data type " ++ sq ++ fields.getD 3 "" ++ sq)
            | some f =>
              match f ty addr value_str base_value verbose with
              | some instrs => .ok instrs
              | none => .error ("Failed to parse value " ++ sq ++ value_str ++ sq)

/-- `InputParser::parse(line, base_addr, base_value, verbose)`. -/
def parse (line : String) (base_addr base_value : Nat) (verbose : Bool) :
    Except String (List Instruction) :=
  parse_fields (tokenizeLine line) base_addr base_value verbose

/-! ### Definitions supporting the claim statements -/

/-- The symbolic value tokens recognized by the "convert value expressions"
block of `parse`. -/
def value_keywords : List String :=
  ["true", "one", "high", "active", "on", "enabled",
   "false", "zero", "low", "inactive", "off", "disabled",
   "pi", "npi", "-pi", "sqrt2", "sqrt3", "phi", "ln2", "e"]

/-- The registry identifiers that select a 32-bit or 64-bit float codec. -/
def float_ids : List String :=
  ["f32_abcd", "f32_cdab", "f32_badc", "f32_dcba", "f32_little", "f32l",
   "f32_big", "f32b", "f32_little_rev", "f32lr", "f32_big_rev", "f32br",
   "f64_abcdefgh", "f64_ghefcdab", "f64_badcfehg", "f64_hgfedcba",
   "f64_little", "f64l", "f64_big", "f64b", "f64_little_rev", "f64lr",
   "f64_big_rev", "f64br"]

/-- Whether a character list begins with the two characters `f:` (the
trigger of the legacy rewrite). -/
def starts_fcolon : List Char → Bool
  | c1 :: c2 :: _ => c1 == 'f' && c2 == ':'
  | _ => false

/-- Reference splitter following the specification text for the tokenizer:
split eagerly from the left at every delimiter, keeping every field
(including a trailing empty one). -/
def split_fields_spec (d : Char) : List Char → List (List Char)
  | [] => [[]]
  | c :: cs =>
    if c = d then [] :: split_fields_spec d cs
    else
      match split_fields_spec d cs with
      | f :: rest => (c :: f) :: rest
      | [] => [[c]]

/-- Drop the last field when (and only when) it is empty — the
specification's "a trailing empty field after the final delimiter is
dropped". -/
def dropLastEmpty : List (List Char) → List (List Char)
  | [] => []
  | [x] => if x = [] then [] else [x]
  | x :: xs => x :: dropLastEmpty xs

/-- Prepend `p` to the first field of a split result (empty result:
a single field `p`). -/
def consHead (p : List Char) : List (List Char) → List (List Char)
  | [] => [p]
  | f :: rest => (p ++ f) :: rest

/-! ### Helper lemmas -/

theorem str_data_append (a b : String) : (a ++ b).data = a.data ++ b.data := by
  cases a
  cases b
  rfl

theorem char_toNat_ofNat_lower (n : Nat) (h1 : 97 ≤ n) (h2 : n ≤ 122) :
    (Char.ofNat n).toNat = n := by
  interval_cases n <;> decide

theorem lowerChar_idem (c : Char) : lowerChar (lowerChar c) = lowerChar c := by
  unfold lowerChar
  by_cases h : 65 ≤ c.toNat ∧ c.toNat ≤ 90
  · rw [if_pos h]
    have ht : (Char.ofNat (c.toNat + 32)).toNat = c.toNat + 32 :=
      char_toNat_ofNat_lower _ (by omega) (by omega)
    rw [if_neg (by omega)]
  · rw [if_neg h, if_neg h]

theorem map_lowerChar_idem (l : List Char) :
    (l.map lowerChar).map lowerChar = l.map lowerChar := by
  induction l with
  | nil => rfl
  | cons c cs ih => simp [lowerChar_idem, ih]

theorem ullFinal_lt (neg : Bool) (v : Nat) (h : v ≤ U64MAX) : ullFinal neg v < 2 ^ 64 := by
  unfold ullFinal U64MAX at *
  split
  · exact Nat.mod_lt _ (by norm_num)
  · omega

theorem stoullM_lt (s : String) (b : Nat) (v i : Nat) (h : stoullM s b = some (v, i)) :
    v < 2 ^ 64 := by
  unfold stoullM at h
  split at h
  · rcases hsp : spanCount isSpaceC s.data with ⟨wsN, l1⟩
    rw [hsp] at h
    dsimp only at h
    rcases hr : readSign l1 with ⟨neg, sgnN, l2⟩
    rw [hr] at h
    dsimp only at h
    rcases hb : resolveBase b l2 with ⟨base', preN, l3⟩
    rw [hb] at h
    dsimp only at h
    rcases ht : takeDigits base' 0 l3 with ⟨v', n', rest⟩
    rw [ht] at h
    dsimp only at h
    split at h
    · simp at h
    · split at h
      · simp at h
      · rename_i hv
        injection h with h'
        have hv1 : ullFinal neg v' = v := congrArg Prod.fst h'
        exact hv1 ▸ ullFinal_lt neg v' (Nat.le_of_not_lt hv)
  · simp at h

theorem stoull_all_lt (s : String) (b : Nat) (v : Nat) (h : stoull_all s b = some v) :
    v < 2 ^ 64 := by
  unfold stoull_all at h
  split at h
  · next v' idx' hp =>
    split at h
    · injection h with h'
      exact h' ▸ stoullM_lt s b v' idx' hp
    · simp at h
  · simp at h

theorem length_mkRegs (t : register_type_t) (a : Nat) (ws : List Nat) :
    (mkRegs t a ws).length = ws.length := by
  simp [mkRegs]

theorem getElem_mkRegs (t : register_type_t) (a : Nat) (ws : List Nat) (i : Nat)
    (h : i < (mkRegs t a ws).length) :
    (mkRegs t a ws)[i] = ⟨t, (a + i) % 2 ^ 64, ws.getD i 0⟩ := by
  have hi : i < ws.length := by simpa [length_mkRegs] using h
  simp [mkRegs, List.getElem_map, List.getElem_range]

theorem length_regsBE_2 (v : Nat) : (regsBE v 2).length = 1 := rfl
theorem length_regsBE_4 (v : Nat) : (regsBE v 4).length = 2 := rfl
theorem length_regsBE_8 (v : Nat) : (regsBE v 8).length = 4 := rfl
theorem length_regsLE_2 (v : Nat) : (regsLE v 2).length = 1 := rfl
theorem length_regsLE_4 (v : Nat) : (regsLE v 4).length = 2 := rfl
theorem length_regsLE_8 (v : Nat) : (regsLE v 8).length = 4 := rfl

theorem mkRegs_explicit4 (t : register_type_t) (a w0 w1 w2 w3 : Nat) (h : a + 3 < 2 ^ 64) :
    mkRegs t a [w0, w1, w2, w3] =
      [⟨t, a, w0⟩, ⟨t, a + 1, w1⟩, ⟨t, a + 2, w2⟩, ⟨t, a + 3, w3⟩] := by
  have e0 : a % 2 ^ 64 = a := by omega
  have e1 : (a + 1) % 2 ^ 64 = a + 1 := by omega
  have e2 : (a + 2) % 2 ^ 64 = a + 2 := by omega
  have e3 : (a + 3) % 2 ^ 64 = a + 3 := by omega
  simp [mkRegs, List.range_succ, e0, e1, e2, e3]
  omega

theorem mkRegs_explicit2 (t : register_type_t) (a w0 w1 : Nat) (h : a + 1 < 2 ^ 64) :
    mkRegs t a [w0, w1] = [⟨t, a, w0⟩, ⟨t, a + 1, w1⟩] := by
  have e0 : a % 2 ^ 64 = a := by omega
  have e1 : (a + 1) % 2 ^ 64 = a + 1 := by omega
  simp [mkRegs, List.range_succ, e0, e1]
  omega

theorem mkRegs_explicit1 (t : register_type_t) (a w0 : Nat) (h : a < 2 ^ 64) :
    mkRegs t a [w0] = [⟨t, a, w0⟩] := by
  have e0 : a % 2 ^ 64 = a := by omega
  simp [mkRegs, List.range_succ, e0]
  omega

/-- Every registry codec produces its instructions through `mkRegs` with a
word list of length 1, 2 or 4. -/
theorem codec_shape (p : String × parse_function) (hp : p ∈ PARSE_FUNCTIONS)
    (t : register_type_t) (addr : Nat) (tok : String) (b : Nat) (vb : Bool)
    (instrs : List Instruction) (h : p.2 t addr tok b vb = some instrs) :
    ∃ ws, instrs = mkRegs t addr ws ∧ (ws.length = 1 ∨ ws.length = 2 ∨ ws.length = 4) := by
  fin_cases hp <;>
    · simp only [parse_u8_lo, parse_u8_hi, parse_i8_lo, parse_i8_hi, parse_u16_ab,
        parse_u16_ba, parse_i16_ab, parse_i16_ba, parse_u32abcd, parse_u32dcba,
        parse_u32cdab, parse_u32badc, parse_i32abcd, parse_i32dcba, parse_i32cdab,
        parse_i32badc, parse_u64abcdefgh, parse_u64hgfedcba, parse_u64ghefcdab,
        parse_u64badcfehg, parse_i64abcdefgh, parse_i64hgfedcba, parse_i64ghefcdab,
        parse_i64badcfehg, parse_f32abcd, parse_f32cdab, parse_f32dcba, parse_f32badc,
        parse_f64abcdefgh, parse_f64hgfedcba, parse_f64ghefcdab, parse_f64badcfehg,
        Option.map_eq_some'] at h
      obtain ⟨v, -, rfl⟩ := h
      exact ⟨_, rfl, by
        simp [List.length_reverse, length_regsBE_2, length_regsBE_4, length_regsBE_8,
          length_regsLE_2, length_regsLE_4, length_regsLE_8]⟩

theorem register_type_of_ao_ai (s : String) (t : register_type_t)
    (h : register_type_of s = some t) (ht : t = .AO ∨ t = .AI) :
    s = "ao" ∨ s = "ai" := by
  unfold register_type_of at h
  split at h
  · injection h with h'
    rcases ht with rfl | rfl <;> cases h'
  · split at h
    · injection h with h'
      rcases ht with rfl | rfl <;> cases h'
    · split at h
      · left
        assumption
      · split at h
        · right
          assumption
        · cases h

theorem head_ne_U {X : String} (r : List Char)
    (hr : X.data = "Unknown data type".data ++ r)
    (hx : X.data.head? ≠ some 'U') : False :=
  hx (by rw [hr]; rfl)

theorem lookup_parse_function_mem (s : String) (f : parse_function)
    (h : lookup_parse_function s = some f) : ∃ p, p ∈ PARSE_FUNCTIONS ∧ p.2 = f := by
  unfold lookup_parse_function at h
  cases hf : PARSE_FUNCTIONS.find? (fun p => p.1 == s) with
  | none => rw [hf] at h; cases h
  | some p =>
    rw [hf] at h
    injection h with h'
    exact ⟨p, List.mem_of_find?_eq_some hf, h'⟩

theorem codec_branch_spec (ty : register_type_t) (addr : Nat) (tok : String) (bv : Nat)
    (verb : Bool) (f : parse_function) (s : String)
    (hf : lookup_parse_function s = some f) (haddr : addr < 2 ^ 64)
    (instrs : List Instruction) (hcodec : f ty addr tok bv verb = some instrs) :
    (instrs.length = 1 ∨ instrs.length = 2 ∨ instrs.length = 4) ∧
      ∃ (ty' : register_type_t) (a : Nat), a < 2 ^ 64 ∧
        ∀ (i : Nat) (hi : i < instrs.length),
          instrs[i].register_type = ty' ∧ instrs[i].address = (a + i) % 2 ^ 64 := by
  obtain ⟨p, hmem, hp2⟩ := lookup_parse_function_mem _ _ hf
  obtain ⟨ws, rfl, hlen⟩ :=
    codec_shape p hmem ty addr tok bv verb instrs (by rw [hp2]; exact hcodec)
  refine ⟨by rw [length_mkRegs]; exact hlen, ty, addr, haddr, ?_⟩
  intro i hi
  rw [getElem_mkRegs _ _ _ _ hi]
  exact ⟨rfl, rfl⟩

theorem split_fields_spec_ne_nil (d : Char) (l : List Char) : split_fields_spec d l ≠ [] := by
  cases l with
  | nil => simp [split_fields_spec]
  | cons c cs =>
    simp only [split_fields_spec]
    split
    · simp
    · split <;> simp

theorem dropLastEmpty_cons (x : List Char) (xs : List (List Char)) (hxs : xs ≠ []) :
    dropLastEmpty (x :: xs) = x :: dropLastEmpty xs := by
  cases xs with
  | nil => exact absurd rfl hxs
  | cons y ys => rfl

theorem consHead_nil_of_ne (r : List (List Char)) (hr : r ≠ []) : consHead [] r = r := by
  cases r with
  | nil => exact absurd rfl hr
  | cons f rest => simp [consHead]

/-- The scanning loop of `split_string` agrees with the specification-side
splitter (keep all fields, then drop a trailing empty one) as long as the
split budget covers every delimiter occurrence. -/
theorem splitGo_eq_spec (d : Char) (l : List Char) :
    ∀ (maxs : Nat) (cur : List Char), l.count d ≤ maxs →
      splitGo d maxs cur l = dropLastEmpty (consHead cur.reverse (split_fields_spec d l)) := by
  induction l with
  | nil =>
    intro maxs cur _
    simp only [splitGo, split_fields_spec, consHead, List.append_nil, dropLastEmpty]
    by_cases hc : cur = []
    · subst hc
      simp
    · rw [if_neg hc, if_neg (by simpa using hc)]
  | cons c cs ih =>
    intro maxs cur hcount
    by_cases hc : c = d
    · subst hc
      have hcount' : cs.count c + 1 ≤ maxs := by
        simpa [List.count_cons] using hcount
      rcases maxs with _ | m
      · omega
      simp only [splitGo, if_pos rfl]
      rw [split_fields_spec, if_pos rfl]
      rw [show consHead cur.reverse ([] :: split_fields_spec c cs) =
        cur.reverse :: split_fields_spec c cs from by simp [consHead]]
      rw [dropLastEmpty_cons _ _ (split_fields_spec_ne_nil c cs)]
      rw [ih m [] (by omega)]
      simp [consHead_nil_of_ne _ (split_fields_spec_ne_nil c cs)]
    · have hcount' : cs.count d ≤ maxs := by
        rw [List.count_cons] at hcount
        omega
      rw [show splitGo d maxs cur (c :: cs) = splitGo d maxs (c :: cur) cs from by
        simp [splitGo, hc]]
      rw [ih maxs (c :: cur) hcount']
      cases hsp : split_fields_spec d cs with
      | nil => exact absurd hsp (split_fields_spec_ne_nil d cs)
      | cons f rest =>
        have hspec : split_fields_spec d (c :: cs) = (c :: f) :: rest := by
          rw [split_fields_spec, if_neg hc, hsp]
        rw [hspec]
        simp [consHead]

theorem split_fields_spec_no_delim (d : Char) (l : List Char) (h : d ∉ l) :
    split_fields_spec d l = [l] := by
  induction l with
  | nil => rfl
  | cons c cs ih =>
    have hc : ¬c = d := fun hh => h (hh ▸ List.mem_cons_self c cs)
    have hcs : d ∉ cs := fun hh => h (List.mem_cons_of_mem c hh)
    rw [split_fields_spec, if_neg hc, ih hcs]

/-! ### Claim theorems -/

/-- C1, counterexample.  The claim asserts that a 3-field line whose value
token denotes an integer greater than 65535 is rejected with a parse failure
naming the token.  In fact `parse` converts the token with `std::stoull` and
casts the result to `uint16_t` without any range check
(`InputParser.cpp:249`), so `do:5:70000` is accepted and the emitted value is
`70000 % 65536 = 4464` — truncated, not rejected. -/
theorem C1_counterexample :
    parse "do:5:70000" 0 0 false = .ok [⟨.DO, 5, 4464⟩] := by decide

/-- C1, amended.  For every 3-field line whose register class and address
parse successfully, the (normalized) value token is converted as an unsigned
64-bit integer in the caller's value base (`stoull_all`, the
`stoull`-and-whole-token check of `parse`): when the conversion fails — the
token is malformed, not fully consumed, or denotes an integer greater than
`2^64 - 1` — `parse` signals a parse failure naming the token; when it
succeeds with value `n`, exactly one Instruction is returned whose value is
`n` reduced `mod 2^16` (values above 65535 are truncated, not rejected). -/
theorem C1_amended_value_truncation (line c0 c1 c2 : String) (ba bv : Nat) (verb : Bool)
    (ty : register_type_t) (addr : Nat)
    (htok : tokenizeLine line = [c0, c1, c2])
    (hty : register_type_of c0 = some ty)
    (haddr : stoull_all c1 ba = some addr) :
    (∀ n : Nat, stoull_all (convert_value c2) bv = some n →
      parse line ba bv verb = .ok [⟨ty, addr, n % 65536⟩]) ∧
    (stoull_all (convert_value c2) bv = none →
      parse line ba bv verb =
        .error ("Failed to parse value " ++ sq ++ convert_value c2 ++ sq)) := by
  constructor
  · intro n hval
    unfold parse
    rw [htok]
    simp [parse_fields, hty, haddr, hval]
  · intro hval
    unfold parse
    rw [htok]
    simp [parse_fields, hty, haddr, hval]

/-- C1, witness for the amended theorem, both branches with bases 0: the
truncating success at `do:5:70000` and the rejection of the out-of-range
token `18446744073709551616` (`2^64`), whose failure names the token. -/
theorem C1_witness :
    (tokenizeLine "do:5:70000" = ["do", "5", "70000"] ∧
      register_type_of "do" = some .DO ∧
      stoull_all "5" 0 = some 5 ∧
      stoull_all (convert_value "70000") 0 = some 70000 ∧
      parse "do:5:70000" 0 0 false = .ok [⟨.DO, 5, 70000 % 65536⟩]) ∧
    (tokenizeLine "do:5:18446744073709551616" = ["do", "5", "18446744073709551616"] ∧
      stoull_all (convert_value "18446744073709551616") 0 = none ∧
      parse "do:5:18446744073709551616" 0 0 false =
        .error ("Failed to parse value " ++ sq ++ convert_value "18446744073709551616" ++ sq)) :=
  ⟨⟨by decide, by decide, by decide, by decide,
    (C1_amended_value_truncation "do:5:70000" "do" "5" "70000" 0 0 false .DO 5
      (by decide) (by decide) (by decide)).1 70000 (by decide)⟩,
   ⟨by decide, by decide,
    (C1_amended_value_truncation "do:5:18446744073709551616" "do" "5" "18446744073709551616"
      0 0 false .DO 5 (by decide) (by decide) (by decide)).2 (by decide)⟩⟩

/-- C2.  For the 32-bit and 64-bit float codecs the tokens `min`, `max`,
`epsilon` and `lowest` are not mapped to the numeric-limit constants: the
C++ keyword branches compute but do not return the constant, so parsing
falls through to the generic decimal parser and fails (and at `parse` level
the failure names the token), while `nan`, `inf` and `-inf` are returned as
the IEEE special values. -/
theorem C2_float_limit_keywords :
    parse_float "min" = none ∧ parse_float "max" = none ∧
      parse_float "epsilon" = none ∧ parse_float "lowest" = none ∧
      parse_double "min" = none ∧ parse_double "max" = none ∧
      parse_double "epsilon" = none ∧ parse_double "lowest" = none ∧
      parse_float "nan" = some 0x7FC00000 ∧
      parse_float "inf" = some 0x7F800000 ∧
      parse_float "-inf" = some 0xFF800000 ∧
      parse_double "nan" = some 0x7FF8000000000000 ∧
      parse_double "inf" = some 0x7FF0000000000000 ∧
      parse_double "-inf" = some 0xFFF0000000000000 ∧
      parse "ao:0:min:f32b" 0 0 false =
        .error ("Failed to parse value " ++ sq ++ "min" ++ sq) ∧
      parse "ao:0:lowest:f64l" 0 0 false =
        .error ("Failed to parse value " ++ sq ++ "lowest" ++ sq) := by
  decide

/-- C3.  Encoding a 64-bit unsigned value `v` with `u64_abcdefgh` at
address `A` yields the four big-endian register words `w0, w1, w2, w3` at
`A, A+1, A+2, A+3`; encoding the same value with `u64_ghefcdab` yields the
same words at the same ascending addresses in fully reversed order
`w3, w2, w1, w0` — a full reversal, not a pairwise swap. -/
theorem C3_u64_full_reversal (ty : register_type_t) (A : Nat) (tok : String) (b : Nat)
    (verb : Bool) (v : Nat)
    (hv : parse_int_u 64 tok b = some v) (hA : A + 3 < 2 ^ 64) :
    parse_u64abcdefgh ty A tok b verb =
        some [⟨ty, A, (regsBE v 8).getD 0 0⟩, ⟨ty, A + 1, (regsBE v 8).getD 1 0⟩,
          ⟨ty, A + 2, (regsBE v 8).getD 2 0⟩, ⟨ty, A + 3, (regsBE v 8).getD 3 0⟩] ∧
      parse_u64ghefcdab ty A tok b verb =
        some [⟨ty, A, (regsBE v 8).getD 3 0⟩, ⟨ty, A + 1, (regsBE v 8).getD 2 0⟩,
          ⟨ty, A + 2, (regsBE v 8).getD 1 0⟩, ⟨ty, A + 3, (regsBE v 8).getD 0 0⟩] := by
  obtain ⟨w0, w1, w2, w3, hw⟩ : ∃ w0 w1 w2 w3, regsBE v 8 = [w0, w1, w2, w3] :=
    ⟨_, _, _, _, rfl⟩
  constructor <;>
    · simp only [parse_u64abcdefgh, parse_u64ghefcdab, hv, Option.map_some', hw,
        List.reverse_cons, List.reverse_nil, List.nil_append, List.cons_append,
        List.getD, List.getElem?_cons_zero, List.getElem?_cons_succ, Option.getD_some]
      rw [mkRegs_explicit4 _ _ _ _ _ _ hA]
      rfl

/-- C3, witness at `v = 1`, `A = 0`. -/
theorem C3_witness :
    parse_int_u 64 "1" 0 = some 1 ∧ 0 + 3 < 2 ^ 64 ∧
      parse_u64abcdefgh .AO 0 "1" 0 false =
        some [⟨.AO, 0, (regsBE 1 8).getD 0 0⟩, ⟨.AO, 0 + 1, (regsBE 1 8).getD 1 0⟩,
          ⟨.AO, 0 + 2, (regsBE 1 8).getD 2 0⟩, ⟨.AO, 0 + 3, (regsBE 1 8).getD 3 0⟩] ∧
      parse_u64ghefcdab .AO 0 "1" 0 false =
        some [⟨.AO, 0, (regsBE 1 8).getD 3 0⟩, ⟨.AO, 0 + 1, (regsBE 1 8).getD 2 0⟩,
          ⟨.AO, 0 + 2, (regsBE 1 8).getD 1 0⟩, ⟨.AO, 0 + 3, (regsBE 1 8).getD 0 0⟩] :=
  ⟨by decide, by decide,
    (C3_u64_full_reversal .AO 0 "1" 0 false 1 (by decide) (by decide)).1,
    (C3_u64_full_reversal .AO 0 "1" 0 false 1 (by decide) (by decide)).2⟩

/-- C9.  The unsigned integer parser accepts a leading minus sign with
modulo-`2^64` wrap-around (the semantics of `strtoull`): for the 64-bit
unsigned data types the token `-1` parses to `2^64 - 1` and `u64_abcdefgh`
emits four all-ones registers, whereas for the unsigned widths 8, 16 and 32
the wrapped value exceeds the type's maximum and is rejected by the range
check in `parse_int`. -/
theorem C9_unsigned_minus_wraparound :
    parse_int_u 64 "-1" 0 = some (2 ^ 64 - 1) ∧
      parse_int_u 32 "-1" 0 = none ∧
      parse_int_u 16 "-1" 0 = none ∧
      parse_int_u 8 "-1" 0 = none ∧
      parse_u64abcdefgh .AO 0 "-1" 0 false =
        some [⟨.AO, 0, 0xFFFF⟩, ⟨.AO, 1, 0xFFFF⟩, ⟨.AO, 2, 0xFFFF⟩, ⟨.AO, 3, 0xFFFF⟩] := by
  decide

/-- C4, counterexample.  The claim asserts that for every line beginning
with `f:` the parse outcome equals that of re-parsing the remainder with
`:f32_badc` appended.  When the remainder itself begins with `f:` the fresh
parse applies the legacy rewrite a second time, which the original parse
does not, and the outcomes differ: `f:f:1:2` fails with `'f' is not a valid
register type`, while `f:1:2:f32_badc` fails with `'1' is not a valid
register type`. -/
theorem C4_counterexample :
    parse "f:f:1:2" 0 0 false ≠ parse "f:1:2:f32_badc" 0 0 false := by decide

/-- C4, amended.  For every line `L` whose lower-cased form is `f:` followed
by the remainder `R`, provided `R` does not itself begin with the two
characters `f:`, `parse L` produces exactly the same outcome as
`parse (R ++ ":f32_badc")` — the legacy shorthand is a pure textual rewrite
preceding tokenization.  (When `R` begins with `f:` the appended line is
rewritten a second time and the outcomes can differ.) -/
theorem C4_amended_legacy_rewrite (L : String) (R : List Char) (ba bv : Nat) (verb : Bool)
    (hL : (strLower L).data = 'f' :: ':' :: R)
    (hR : starts_fcolon R = false) :
    parse L ba bv verb = parse (String.mk R ++ ":f32_badc") ba bv verb := by
  have hmapR : R.map lowerChar = R := by
    have h2 := map_lowerChar_idem L.data
    rw [show (strLower L).data = L.data.map lowerChar from rfl] at hL
    rw [hL] at h2
    simp only [List.map_cons, List.cons.injEq] at h2
    exact h2.2.2
  have hdata : (strLower (String.mk R ++ ":f32_badc")).data = R ++ ":f32_badc".data := by
    show ((String.mk R ++ ":f32_badc").data).map lowerChar = _
    rw [str_data_append]
    simp only [List.map_append, hmapR]
    norm_num [show (":f32_badc".data).map lowerChar = ":f32_badc".data from by decide]
  unfold parse tokenizeLine
  rw [hL]
  have hrwL : rewrite_legacy ('f' :: ':' :: R) = R ++ ":f32_badc".data := by
    simp [rewrite_legacy]
  rw [hrwL, hdata]
  match R, hR with
  | [], _ => rfl
  | [c], hR =>
    by_cases hc : c = 'f'
    · subst hc
      rw [show rewrite_legacy (['f'] ++ ":f32_badc".data) =
          "f32_badc".data ++ ":f32_badc".data from by decide]
      rw [show split_string (String.mk (['f'] ++ ":f32_badc".data)) ':' (2 ^ 64 - 1) =
          ["f", "f32_badc"] from by decide]
      rw [show split_string (String.mk ("f32_badc".data ++ ":f32_badc".data)) ':' (2 ^ 64 - 1) =
          ["f32_badc", "f32_badc"] from by decide]
      rfl
    · have hsame : rewrite_legacy ([c] ++ ":f32_badc".data) = [c] ++ ":f32_badc".data := by
        simpa using show rewrite_legacy (c :: ':' :: 'f' :: "32_badc".data) =
            c :: ':' :: 'f' :: "32_badc".data from by simp [rewrite_legacy, hc]
      rw [hsame]
  | c1 :: c2 :: rest, hR =>
    have hnot : ¬(c1 = 'f' ∧ c2 = ':') := by
      simp [starts_fcolon] at hR
      intro hx
      exact absurd (hR hx.1) (by simp [hx.2])
    have hsame : rewrite_legacy ((c1 :: c2 :: rest) ++ ":f32_badc".data) =
        (c1 :: c2 :: rest) ++ ":f32_badc".data := by
      simp only [List.cons_append]
      simp [rewrite_legacy, hnot]
    rw [hsame]

/-- C4, witness: `F:AO:1:1` parses exactly as `ao:1:1:f32_badc`. -/
theorem C4_witness :
    (strLower "F:AO:1:1").data = 'f' :: ':' :: "ao:1:1".data ∧
      starts_fcolon "ao:1:1".data = false ∧
      parse "F:AO:1:1" 0 0 false = parse (String.mk "ao:1:1".data ++ ":f32_badc") 0 0 false :=
  ⟨by decide, by decide,
    C4_amended_legacy_rewrite "F:AO:1:1" "ao:1:1".data 0 0 false (by decide) (by decide)⟩

/-- C6.  The Value Normalizer replaces the value field exactly when it
equals a recognized keyword — `true|one|high|active|on|enabled` become `"1"`
and `false|zero|low|inactive|off|disabled` become `"0"`, any token outside
the keyword table is left unchanged — and consequently `ao:3:true:f32b` is
not rejected but parses to the 32-bit big-endian float encoding of `1.0`
occupying registers 3 and 4. -/
theorem C6_value_normalizer :
    (convert_value "true" = "1" ∧ convert_value "one" = "1" ∧ convert_value "high" = "1" ∧
      convert_value "active" = "1" ∧ convert_value "on" = "1" ∧
      convert_value "enabled" = "1") ∧
    (convert_value "false" = "0" ∧ convert_value "zero" = "0" ∧ convert_value "low" = "0" ∧
      convert_value "inactive" = "0" ∧ convert_value "off" = "0" ∧
      convert_value "disabled" = "0") ∧
    (∀ s : String, s ∉ value_keywords → convert_value s = s) ∧
    parse "ao:3:true:f32b" 0 0 false = .ok [⟨.AO, 3, 0x803F⟩, ⟨.AO, 4, 0⟩] := by
  refine ⟨by decide, by decide, ?_, by decide⟩
  intro s hs
  simp [value_keywords] at hs
  obtain ⟨h1, h2, h3, h4, h5, h6, h7, h8, h9, h10, h11, h12, h13, h14, h15, h16, h17, h18,
    h19, h20⟩ := hs
  simp [convert_value, h1, h2, h3, h4, h5, h6, h7, h8, h9, h10, h11, h12, h13, h14, h15,
    h16, h17, h18, h19, h20]

/-- C6, witness for the keyword-freeness hypothesis at the token `7`. -/
theorem C6_witness :
    "7" ∉ value_keywords ∧ convert_value "7" = "7" :=
  ⟨by decide, (C6_value_normalizer.2.2.1) "7" (by decide)⟩

/-- C5.  (1) For every 4-field line whose register class resolves to
DiscreteOutput or DiscreteInput and whose address parses, `parse` fails with
the disallowed-data-type error regardless of the fourth field — the class
check precedes the registry lookup.  (2) The unknown-data-type error (any
error message beginning with `Unknown data type`) is reported only for
lines whose register-class field is `ao` or `ai`. -/
theorem C5_coil_datatype_precedence :
    (∀ (line c0 c1 c2 c3 : String) (ba bv : Nat) (verb : Bool)
      (ty : register_type_t) (addr : Nat),
      tokenizeLine line = [c0, c1, c2, c3] →
      register_type_of c0 = some ty → (ty = .DO ∨ ty = .DI) →
      stoull_all c1 ba = some addr →
      parse line ba bv verb = .error "Data type specification for coils is not allowed") ∧
    (∀ (line : String) (ba bv : Nat) (verb : Bool) (msg : String),
      parse line ba bv verb = .error msg →
      (∃ r, msg.data = "Unknown data type".data ++ r) →
      (tokenizeLine line).getD 0 "" = "ao" ∨ (tokenizeLine line).getD 0 "" = "ai") := by
  constructor
  · intro line c0 c1 c2 c3 ba bv verb ty addr htok hty hdo haddr
    unfold parse
    rw [htok]
    rcases hdo with rfl | rfl <;> simp [parse_fields, hty, haddr]
  · intro line ba bv verb msg h hpre
    obtain ⟨r, hr⟩ := hpre
    unfold parse at h
    rcases hF : tokenizeLine line with _ | ⟨a, _ | ⟨b, _ | ⟨c, _ | ⟨d, _ | ⟨e, rest⟩⟩⟩⟩⟩ <;>
      rw [hF] at h
    · simp only [parse_fields] at h
      norm_num at h
      subst h
      exact (head_ne_U r hr (by decide)).elim
    · simp only [parse_fields] at h
      norm_num at h
      subst h
      exact (head_ne_U r hr (by decide)).elim
    · simp only [parse_fields] at h
      norm_num at h
      subst h
      exact (head_ne_U r hr (by decide)).elim
    · simp only [parse_fields, List.length_cons, List.length_nil, List.set, List.getD,
        List.get?, Option.getD] at h
      norm_num at h
      split at h
      · injection h with h'
        subst h'
        exact (head_ne_U r hr (by
          rw [show (sq ++ a ++ sq ++
            " is not a valid register type").data.head? = some (Char.ofNat 39) from rfl]
          decide)).elim
      · split at h
        · injection h with h'
          subst h'
          exact (head_ne_U r hr (by
            rw [show ("Failed to parse address " ++ sq ++ b ++
              sq).data.head? = some 'F' from rfl]
            decide)).elim
        · split at h
          · injection h with h'
            subst h'
            exact (head_ne_U r hr (by
              rw [show ("Failed to parse value " ++ sq ++ convert_value c ++
                sq).data.head? = some 'F' from rfl]
              decide)).elim
          · cases h
    · simp only [parse_fields, List.length_cons, List.length_nil, List.set, List.getD,
        List.get?, Option.getD] at h
      norm_num at h
      split at h
      · injection h with h'
        subst h'
        exact (head_ne_U r hr (by
          rw [show (sq ++ a ++ sq ++
            " is not a valid register type").data.head? = some (Char.ofNat 39) from rfl]
          decide)).elim
      · rename_i ty hty
        split at h
        · injection h with h'
          subst h'
          exact (head_ne_U r hr (by
            rw [show ("Failed to parse address " ++ sq ++ b ++
              sq).data.head? = some 'F' from rfl]
            decide)).elim
        · rcases ty with _ | _ | _ | _
          · simp only [Except.error.injEq] at h
            subst h
            exact (head_ne_U r hr (by decide)).elim
          · simp only [Except.error.injEq] at h
            subst h
            exact (head_ne_U r hr (by decide)).elim
          · exact register_type_of_ao_ai a _ hty (Or.inl rfl)
          · exact register_type_of_ao_ai a _ hty (Or.inr rfl)
    · unfold parse_fields at h
      rw [if_pos (by left; simp only [List.length_cons]; omega)] at h
      injection h with h'
      subst h'
      exact (head_ne_U r hr (by decide)).elim

/-- C5, witness: `do:1:2:u16b` is rejected as a coil data type, and on
`ao:1:2:zzz` (unknown data type) the class field is indeed `ao`. -/
theorem C5_witness :
    parse "do:1:2:u16b" 0 0 false =
        .error "Data type specification for coils is not allowed" ∧
      ((tokenizeLine "ao:1:2:zzz").getD 0 "" = "ao" ∨
        (tokenizeLine "ao:1:2:zzz").getD 0 "" = "ai") :=
  ⟨C5_coil_datatype_precedence.1 "do:1:2:u16b" "do" "1" "2" "u16b" 0 0 false .DO 1
      (by decide) (by decide) (Or.inl rfl) (by decide),
    C5_coil_datatype_precedence.2 "ao:1:2:zzz" 0 0 false
      ("Unknown data type " ++ sq ++ "zzz" ++ sq) (by decide)
      ⟨(" " ++ sq ++ "zzz" ++ sq).data, by decide⟩⟩

/-- C7, counterexample.  The claim asserts the addresses of a multi-register
emission always form the contiguous ascending run `address .. address+width-1`.
The C++ code computes the successor addresses in `size_t`, which wraps:
`ao:0xfffffffffffffffe:0:u64b` parses successfully and emits registers at
addresses `2^64-2, 2^64-1, 0, 1` — not an ascending run (`(2^64-2)+2 = 2^64`
is not an emitted address). -/
theorem C7_counterexample :
    parse "ao:0xfffffffffffffffe:0:u64b" 0 0 false =
        .ok [⟨.AO, 2 ^ 64 - 2, 0⟩, ⟨.AO, 2 ^ 64 - 1, 0⟩, ⟨.AO, 0, 0⟩, ⟨.AO, 1, 0⟩] ∧
      (2 ^ 64 - 2) + 2 ≠ (0 : Nat) := by
  constructor
  · decide
  · decide

/-- C7, amended.  For every successful parse, all emitted Instructions carry
the same resolved register class, the number of instructions is 1, 2 or 4,
and instruction `i` (in emission order) is addressed at
`(address + i) mod 2^64` — the contiguous ascending run
`address, …, address+width-1` whenever `address + width - 1 < 2^64`, with
`size_t` wrap-around at the very top of the address space. -/
theorem C7_amended_contiguous_run (line : String) (ba bv : Nat) (verb : Bool)
    (instrs : List Instruction) (h : parse line ba bv verb = .ok instrs) :
    (instrs.length = 1 ∨ instrs.length = 2 ∨ instrs.length = 4) ∧
      ∃ (ty : register_type_t) (a : Nat), a < 2 ^ 64 ∧
        ∀ (i : Nat) (hi : i < instrs.length),
          instrs[i].register_type = ty ∧ instrs[i].address = (a + i) % 2 ^ 64 := by
  unfold parse at h
  rcases hF : tokenizeLine line with _ | ⟨a, _ | ⟨b, _ | ⟨c, _ | ⟨d, _ | ⟨e, rest⟩⟩⟩⟩⟩ <;>
    rw [hF] at h
  · simp only [parse_fields] at h
    norm_num at h
    cases h
  · simp only [parse_fields] at h
    norm_num at h
    cases h
  · simp only [parse_fields] at h
    norm_num at h
    cases h
  · simp only [parse_fields, List.length_cons, List.length_nil, List.set, List.getD,
      List.get?, Option.getD] at h
    norm_num at h
    split at h
    · cases h
    rename_i ty hty
    split at h
    · cases h
    rename_i addr haddr
    split at h
    · cases h
    rename_i v hval
    injection h with h'
    subst h'
    refine ⟨Or.inl rfl, ty, addr, stoull_all_lt _ _ _ haddr, ?_⟩
    intro i hi
    rcases i with _ | i
    · refine ⟨rfl, ?_⟩
      have hlt := stoull_all_lt _ _ _ haddr
      simp
      omega
    · simp at hi
  · simp only [parse_fields, List.length_cons, List.length_nil, List.set, List.getD,
      List.get?, Option.getD] at h
    norm_num at h
    split at h
    · cases h
    rename_i ty hty
    split at h
    · cases h
    rename_i addr haddr
    rcases ty with _ | _ | _ | _
    · cases h
    · cases h
    all_goals (
      dsimp only at h
      split at h
      · cases h
      rename_i f hf
      split at h
      · rename_i instrs0 hcodec
        injection h with h'
        subst h'
        exact codec_branch_spec _ addr _ bv verb f d hf (stoull_all_lt _ _ _ haddr) _ hcodec
      · cases h)
  · unfold parse_fields at h
    rw [if_pos (by left; simp only [List.length_cons]; omega)] at h
    cases h

/-- C7, witness at `ao:7:1:u32b`, whose two instructions sit at 7 and 8. -/
theorem C7_witness :
    parse "ao:7:1:u32b" 0 0 false = .ok [⟨.AO, 7, 0⟩, ⟨.AO, 8, 256⟩] ∧
      ((([⟨.AO, 7, 0⟩, ⟨.AO, 8, 256⟩] : List Instruction).length = 1 ∨
        ([⟨.AO, 7, 0⟩, ⟨.AO, 8, 256⟩] : List Instruction).length = 2 ∨
        ([⟨.AO, 7, 0⟩, ⟨.AO, 8, 256⟩] : List Instruction).length = 4) ∧
      ∃ (ty : register_type_t) (a : Nat), a < 2 ^ 64 ∧
        ∀ (i : Nat) (hi : i < ([⟨.AO, 7, 0⟩, ⟨.AO, 8, 256⟩] : List Instruction).length),
          (([⟨.AO, 7, 0⟩, ⟨.AO, 8, 256⟩] : List Instruction)[i]).register_type = ty ∧
          (([⟨.AO, 7, 0⟩, ⟨.AO, 8, 256⟩] : List Instruction)[i]).address = (a + i) % 2 ^ 64) :=
  ⟨by decide,
    C7_amended_contiguous_run "ao:7:1:u32b" 0 0 false [⟨.AO, 7, 0⟩, ⟨.AO, 8, 256⟩] (by decide)⟩

/-- C8, counterexample.  The claim asserts that when the delimiter never
occurs the tokenizer returns the full string as a single-element list, with
no other behaviour.  For the empty input the delimiter never occurs, yet
`split_string` returns the empty list, not `[""]` (the trailing-remainder
push is guarded by `!string.empty()`). -/
theorem C8_counterexample :
    split_string "" ':' (2 ^ 64 - 1) = ([] : List String) ∧
      ([] : List String) ≠ [""] := by
  constructor
  · decide
  · decide

/-- C8, amended.  The tokenizer splits eagerly from the left into the
ordered field list and drops a trailing empty field (and only that field),
i.e. it returns exactly the specification splitter's fields with a trailing
empty field removed, whenever the split budget covers every delimiter
occurrence (always true for the default budget `2^64-1` on realistic
input).  When the delimiter never occurs, the result is the full string as
a single-element list for non-empty input, and the empty list for the
empty string; the tokenizer has no other failure mode. -/
theorem C8_amended_tokenizer :
    (∀ (s : String) (d : Char) (maxs : Nat), s.data.count d ≤ maxs →
      split_string s d maxs = (dropLastEmpty (split_fields_spec d s.data)).map String.mk) ∧
    (∀ (s : String) (d : Char), s ≠ "" → d ∉ s.data →
      split_string s d (2 ^ 64 - 1) = [s]) := by
  have main : ∀ (s : String) (d : Char) (maxs : Nat), s.data.count d ≤ maxs →
      split_string s d maxs = (dropLastEmpty (split_fields_spec d s.data)).map String.mk := by
    intro s d maxs hcount
    unfold split_string
    rw [splitGo_eq_spec d s.data maxs [] hcount]
    rw [show ([] : List Char).reverse = [] from rfl,
      consHead_nil_of_ne _ (split_fields_spec_ne_nil d s.data)]
  refine ⟨main, ?_⟩
  intro s d hs hd
  rw [main s d (2 ^ 64 - 1) (by rw [List.count_eq_zero.mpr hd]; omega)]
  rw [split_fields_spec_no_delim d s.data hd]
  have hdata : s.data ≠ [] := by
    intro hh
    exact hs (by cases s; simp_all)
  rw [show dropLastEmpty [s.data] = [s.data] from by
    simp [dropLastEmpty, hdata]]
  simp

/-- C8, witness: `a:b:` (trailing empty field dropped) and the
delimiter-free `ab`. -/
theorem C8_witness :
    ("a:b:".data.count ':' ≤ 2 ^ 64 - 1 ∧
      split_string "a:b:" ':' (2 ^ 64 - 1) =
        (dropLastEmpty (split_fields_spec ':' "a:b:".data)).map String.mk) ∧
    ("ab" ≠ "" ∧ ':' ∉ "ab".data ∧ split_string "ab" ':' (2 ^ 64 - 1) = ["ab"]) :=
  ⟨⟨by decide, C8_amended_tokenizer.1 "a:b:" ':' (2 ^ 64 - 1) (by decide)⟩,
    ⟨by decide, by decide, C8_amended_tokenizer.2 "ab" ':' (by decide) (by decide)⟩⟩

/-- C10.  The float codecs ignore the caller-supplied value base: for every
4-field line whose data-type field selects a 32-bit or 64-bit float codec,
`parse` yields identical outcomes under any two value bases (the value
token is always interpreted as a decimal floating-point numeral), in
contrast to the integer codecs, which honor the base (`ao:0:10:u16b`
parses to register value 2560 under base 10 and 4096 under base 16). -/
theorem C10_float_base_independent :
    (∀ (line c0 c1 c2 c3 : String) (ba b1 b2 : Nat) (verb : Bool),
      tokenizeLine line = [c0, c1, c2, c3] → c3 ∈ float_ids →
      parse line ba b1 verb = parse line ba b2 verb) ∧
    parse "ao:0:10:u16b" 0 10 false ≠ parse "ao:0:10:u16b" 0 16 false := by
  constructor
  · intro line c0 c1 c2 c3 ba b1 b2 verb htok hc3
    unfold parse
    rw [htok]
    simp only [parse_fields, List.length_cons, List.length_nil, List.set, List.getD,
      List.get?, Option.getD]
    norm_num
    cases hty : register_type_of c0 with
    | none => rfl
    | some ty =>
      cases haddr : stoull_all c1 ba with
      | none => rfl
      | some addr =>
        cases ty with
        | DO => rfl
        | DI => rfl
        | AO => fin_cases hc3 <;> rfl
        | AI => fin_cases hc3 <;> rfl
  · decide

/-- C10, witness: `ao:1:2:f32b` parses identically under value bases 10
and 16. -/
theorem C10_witness :
    tokenizeLine "ao:1:2:f32b" = ["ao", "1", "2", "f32b"] ∧
      "f32b" ∈ float_ids ∧
      parse "ao:1:2:f32b" 0 10 false = parse "ao:1:2:f32b" 0 16 false :=
  ⟨by decide, by decide,
    C10_float_base_independent.1 "ao:1:2:f32b" "ao" "1" "2" "f32b" 0 10 16 false
      (by decide) (by decide)⟩

end InputParser
